import Mathlib

/-!
Verification of the tracing/instrumentation facility in
`src/combinator/debug/mod.rs` (the `trace` combinator of a parser-combinator
library).

The file shallowly embeds the code: parse results are `PResult` (Rust
`Result<O, ErrMode<E>>`), the compile-time switches (`feature = "debug"`,
`debug_assertions`) are a `BuildConfig` record, and the compile-time
environment lookup `option_env!("WINNOW_DEBUG")` is an `Option String`
parameter fixed for the whole development, mirroring that it is baked in at
compile time.  The `internals` submodule (the active tracer, the depth
tracker and the severity classifier) is only declared in the sources, its
body is absent; those parts are modelled from the specification, as marked
on each definition.
-/

namespace Winnow

/-- Rust `error::Needed`: how much more input an incomplete parse wants. -/
inductive Needed where
  | Unknown : Needed
  | Size : Nat → Needed
deriving DecidableEq, Repr

/-- Rust `error::ErrMode<E>`: the three error classes a parser can signal. -/
inductive ErrMode (E : Type) where
  | Incomplete : Needed → ErrMode E
  | Backtrack : E → ErrMode E
  | Cut : E → ErrMode E
deriving DecidableEq, Repr

/-- Rust `PResult<O, E> = Result<O, ErrMode<E>>`. -/
inductive PResult (O E : Type) where
  | ok : O → PResult O E
  | err : ErrMode E → PResult O E
deriving DecidableEq, Repr

/-- Modelled from the spec: the severity taxonomy of `internals::Severity`
(the `internals` module is declared in `mod.rs` but its body is not under
`src/`). -/
inductive Severity where
  | Success : Severity
  | RecoverableFailure : Severity
  | UnrecoverableFailure : Severity
  | Incomplete : Severity
deriving DecidableEq, Repr

/-- Modelled from the spec: `internals::Severity::with_result` (body not
under `src/`), classifying a parse outcome per spec section 4.3: a value is
Success, a backtrack error is RecoverableFailure, a cut error is
UnrecoverableFailure, an incomplete signal is Incomplete. -/
def Severity.with_result {O E : Type} : PResult O E → Severity
  | .ok _ => .Success
  | .err (.Backtrack _) => .RecoverableFailure
  | .err (.Cut _) => .UnrecoverableFailure
  | .err (.Incomplete _) => .Incomplete

/-- Rust `str::parse::<bool>` (`FromStr` for `bool`): exactly the strings
"true" and "false" parse; everything else is an error (`none`). -/
def parse_bool : String → Option Bool
  | "true" => some true
  | "false" => some false
  | _ => none

/-- The two compile-time switches gating tracing in `mod.rs`:
`feature = "debug"` and `debug_assertions`. -/
structure BuildConfig where
  debug_feature : Bool
  debug_assertions : Bool
deriving DecidableEq, Repr

/-- Phase of a rendered trace line: enter, exit, or a bare result line
(the latter is what `trace_result` renders). -/
inductive Phase where
  | enter : Phase
  | exit : Phase
  | result : Phase
deriving DecidableEq, Repr

/-- One rendered trace line: the depth it was rendered at, the display name,
the phase, and (for exit/result lines) the classified severity. -/
structure TraceEvent where
  depth : Int
  name : String
  phase : Phase
  severity : Option Severity
deriving DecidableEq, Repr

/-- Modelled from the spec: the per-execution-context tracing state.
`depth` is the `internals::Depth` counter (body not under `src/`);
`history` records every value the counter passes through (the observations
the depth invariant quantifies over); `log` is the diagnostic sink;
`sinkBroken` models an output sink whose writes fail. -/
structure Ctx where
  depth : Int
  history : List Int
  log : List TraceEvent
  sinkBroken : Bool
deriving DecidableEq, Repr

/-- The initial context of a fresh execution context: depth 0, nothing
rendered, working sink. -/
def Ctx.init : Ctx := ⟨0, [], [], false⟩

/-- Modelled from the spec: acquiring a depth scope (spec section 4.2)
increments the counter by one; the new value is recorded as observed. -/
def Ctx.acquire (c : Ctx) : Ctx :=
  { c with depth := c.depth + 1, history := c.history ++ [c.depth + 1] }

/-- Modelled from the spec: releasing a depth scope decrements the counter
by one on every exit path; the new value is recorded as observed. -/
def Ctx.release (c : Ctx) : Ctx :=
  { c with depth := c.depth - 1, history := c.history ++ [c.depth - 1] }

/-- Modelled from the spec: rendering one trace line.  Gated by the
per-tracer enabled flag; a broken sink makes the write fail, and per spec
section 4.4/7 that failure is swallowed (the line is dropped, nothing else
happens). -/
def Ctx.emit (c : Ctx) (enabled : Bool) (ev : TraceEvent) : Ctx :=
  if enabled && !c.sinkBroken then { c with log := c.log ++ [ev] } else c

/-- A parser over stream `I` producing `O` with error component `E`.
`prim` is an arbitrary leaf parser (any function from input to outcome and
remaining input); `traced` is the active tracer wrapper
(`internals::Trace`, with its per-instance enabled flag); `seq` and `alt`
are the sequencing and backtracking-alternative combinators, included so
that nested traced invocations can fail partway through a sequence. -/
inductive PExpr (I O E : Type) where
  | prim : (I → I × PResult O E) → PExpr I O E
  | traced : String → Bool → PExpr I O E → PExpr I O E
  | seq : PExpr I O E → PExpr I O E → PExpr I O E
  | alt : PExpr I O E → PExpr I O E → PExpr I O E

/-- Outcome of one parser invocation: the tracing context after the call,
the resulting input (Rust mutates the input in place through `&mut I`), and
the parse result. -/
structure RunOut (I O E : Type) where
  ctx : Ctx
  input : I
  result : PResult O E
deriving DecidableEq, Repr

/-- Modelled from the spec: the invocation semantics.  A `prim` just runs.
A `traced` node follows spec section 4.5: acquire a depth scope, render an
Enter line if enabled, delegate with the same input, classify the outcome,
render an Exit line with the severity if enabled, release the depth scope,
and return the wrapped parser's outcome unchanged.  Depth bookkeeping is
unconditional (spec section 4.1); only rendering is gated.  `seq` runs the
second parser only on success of the first; `alt` retries the second parser
from the original input on a backtrack error and propagates cut and
incomplete errors. -/
def run {I O E : Type} : PExpr I O E → Ctx → I → RunOut I O E
  | .prim f, c, i => ⟨c, (f i).1, (f i).2⟩
  | .traced name enabled p, c, i =>
      let c1 := c.acquire
      let c2 := c1.emit enabled ⟨c1.depth, name, .enter, none⟩
      let o := run p c2 i
      let sev := Severity.with_result o.result
      let c3 := o.ctx.emit enabled ⟨o.ctx.depth, name, .exit, some sev⟩
      ⟨c3.release, o.input, o.result⟩
  | .seq p q, c, i =>
      let o := run p c i
      match o.result with
      | .ok _ => run q o.ctx o.input
      | .err e => ⟨o.ctx, o.input, .err e⟩
  | .alt p q, c, i =>
      let o := run p c i
      match o.result with
      | .err (.Backtrack _) => run q o.ctx i
      | _ => o

/-- Modelled from the spec: `internals::Trace` (body not under `src/`), the
active tracer: the wrapped parser, its display name, and the enabled flag
resolved at construction. -/
structure Trace (I O E : Type) where
  parser : PExpr I O E
  name : String
  enabled : Bool

/-- Modelled from the spec: `internals::Trace::new`. -/
def Trace.new {I O E : Type} (parser : PExpr I O E) (name : String)
    (enabled : Bool) : Trace I O E :=
  ⟨parser, name, enabled⟩

/-- Modelled from the spec: the active tracer's `parse_next` is exactly one
traced invocation of the wrapped parser. -/
def Trace.parse_next {I O E : Type} (t : Trace I O E) (c : Ctx) (i : I) :
    RunOut I O E :=
  run (.traced t.name t.enabled t.parser) c i

/-- `TraceEmpty` from `mod.rs`: the inert wrapper holding the parser and the
(never read) display name. -/
structure TraceEmpty (I O E : Type) where
  parser : PExpr I O E
  _name : String

/-- `TraceEmpty::new` from `mod.rs`. -/
def TraceEmpty.new {I O E : Type} (parser : PExpr I O E) (name : String) :
    TraceEmpty I O E :=
  ⟨parser, name⟩

/-- `TraceEmpty::parse_next` from `mod.rs`: `self.parser.parse_next(i)` —
direct delegation, no depth interaction, no rendering by the wrapper. -/
def TraceEmpty.parse_next {I O E : Type} (t : TraceEmpty I O E) (c : Ctx)
    (i : I) : RunOut I O E :=
  run t.parser c i

/-- The value `trace` returns: either the active variant or the inert one. -/
inductive Tracer (I O E : Type) where
  | active : Trace I O E → Tracer I O E
  | empty : TraceEmpty I O E → Tracer I O E

/-- Invoking whichever variant `trace` returned. -/
def Tracer.parse_next {I O E : Type} : Tracer I O E → Ctx → I → RunOut I O E
  | .active t, c, i => t.parse_next c i
  | .empty t, c, i => t.parse_next c i

/-- The enabled flag an invocation of a tracer observes: the constructed
flag of the active variant; the inert variant never renders. -/
def Tracer.enabled_flag {I O E : Type} : Tracer I O E → Bool
  | .active t => t.enabled
  | .empty _ => false

/-- `trace` from `mod.rs` lines 40-53.  `cfg` are the two compile-time
switches; `env` is `option_env!("WINNOW_DEBUG")`, fixed at compile time.
With `feature = "debug"` and `debug_assertions` both on: if the variable is
present the active tracer is built with `flag.parse::<bool>().unwrap_or_default()`,
otherwise with `false`.  Otherwise the inert `TraceEmpty` is returned. -/
def trace {I O E : Type} (cfg : BuildConfig) (env : Option String)
    (name : String) (parser : PExpr I O E) : Tracer I O E :=
  if cfg.debug_feature && cfg.debug_assertions then
    match env with
    | some flag => .active (Trace.new parser name ((parse_bool flag).getD false))
    | none => .active (Trace.new parser name false)
  else
    .empty (TraceEmpty.new parser name)

/-- `trace_result` from `mod.rs` lines 56-70, as the list of lines it
renders: inside the compile-time gate, if the variable is present and parses
to `true`, one result line at the current depth with the classified
severity (`internals::result`, modelled from the spec as that one line);
otherwise nothing. -/
def trace_result {O E : Type} (cfg : BuildConfig) (env : Option String)
    (depth : Int) (name : String) (res : PResult O E) : List TraceEvent :=
  if cfg.debug_feature && cfg.debug_assertions then
    match env with
    | some flag =>
        if (parse_bool flag).getD false then
          [⟨depth, name, .result, some (Severity.with_result res)⟩]
        else []
    | none => []
  else []

/-- The resolved process-wide toggle of spec section 3: support compiled in,
debug build, and the environment override present and parsing to `true`. -/
def resolved_toggle (cfg : BuildConfig) (env : Option String) : Bool :=
  cfg.debug_feature && cfg.debug_assertions &&
    (match env with
     | some flag => (parse_bool flag).getD false
     | none => false)

/-- The embedding of a call site `trace_result(name, &res)` in a caller
whose state is (tracing context, input, parse result): the rendered lines
go to the sink (dropped if it is broken), the borrowed result and the rest
of the caller's state are passed through. -/
def trace_result_call {I O E : Type} (cfg : BuildConfig) (env : Option String)
    (name : String) (st : Ctx × I × PResult O E) : Ctx × I × PResult O E :=
  let c := st.1
  let lines := trace_result cfg env c.depth name st.2.2
  ({ c with log := if c.sinkBroken then c.log else c.log ++ lines },
   st.2.1, st.2.2)

@[simp] theorem Ctx.emit_depth (c : Ctx) (b : Bool) (ev : TraceEvent) :
    (c.emit b ev).depth = c.depth := by
  unfold Ctx.emit; split <;> rfl

@[simp] theorem Ctx.emit_history (c : Ctx) (b : Bool) (ev : TraceEvent) :
    (c.emit b ev).history = c.history := by
  unfold Ctx.emit; split <;> rfl

@[simp] theorem Ctx.emit_sinkBroken (c : Ctx) (b : Bool) (ev : TraceEvent) :
    (c.emit b ev).sinkBroken = c.sinkBroken := by
  unfold Ctx.emit; split <;> rfl

@[simp] theorem Ctx.acquire_depth (c : Ctx) : c.acquire.depth = c.depth + 1 := rfl

@[simp] theorem Ctx.acquire_history (c : Ctx) :
    c.acquire.history = c.history ++ [c.depth + 1] := rfl

@[simp] theorem Ctx.acquire_log (c : Ctx) : c.acquire.log = c.log := rfl

@[simp] theorem Ctx.release_depth (c : Ctx) : c.release.depth = c.depth - 1 := rfl

@[simp] theorem Ctx.release_history (c : Ctx) :
    c.release.history = c.history ++ [c.depth - 1] := rfl

@[simp] theorem Ctx.release_log (c : Ctx) : c.release.log = c.log := rfl

theorem Ctx.emit_log_disabled (c : Ctx) (ev : TraceEvent) :
    (c.emit false ev).log = c.log := rfl

/-- Depth restoration: running any parser returns the depth counter to its
value before the invocation, on every outcome. -/
theorem run_depth {I O E : Type} (p : PExpr I O E) :
    ∀ (c : Ctx) (i : I), (run p c i).ctx.depth = c.depth := by
  induction p with
  | prim f => intro c i; rfl
  | traced name enabled p ih =>
      intro c i
      simp only [run, Ctx.release_depth, Ctx.emit_depth, ih, Ctx.acquire_depth]
      omega
  | seq p q ihp ihq =>
      intro c i
      simp only [run]
      rcases h : (run p c i).result with v | e
      · simp only [h, ihq, ihp]
      · simp only [h, ihp]
  | alt p q ihp ihq =>
      intro c i
      simp only [run]
      rcases h : (run p c i).result with v | e
      · simp only [h, ihp]
      · cases e with
        | Incomplete n => simp only [h, ihp]
        | Backtrack e => simp only [h, ihq, ihp]
        | Cut e => simp only [h, ihp]

/-- The parse outcome (result and resulting input) does not depend on the
tracing context at all: the tracing state is a pure side channel. -/
theorem run_out_congr {I O E : Type} (p : PExpr I O E) :
    ∀ (c c' : Ctx) (i : I),
      (run p c i).input = (run p c' i).input ∧
      (run p c i).result = (run p c' i).result := by
  induction p with
  | prim f => intro c c' i; exact ⟨rfl, rfl⟩
  | traced name enabled p ih =>
      intro c c' i
      simp only [run]
      exact ih _ _ i
  | seq p q ihp ihq =>
      intro c c' i
      simp only [run]
      obtain ⟨hi, hr⟩ := ihp c c' i
      rcases h : (run p c i).result with v | e
      · rw [h] at hr
        simp only [h, ← hr]
        rw [hi]
        exact ihq _ _ _
      · rw [h] at hr
        simp only [h, ← hr, hi, and_self]
  | alt p q ihp ihq =>
      intro c c' i
      simp only [run]
      obtain ⟨hi, hr⟩ := ihp c c' i
      rcases h : (run p c i).result with v | e
      · rw [h] at hr; simp only [h, ← hr, hi, and_self]
      · rw [h] at hr
        cases e with
        | Incomplete n => simp only [h, ← hr, hi, and_self]
        | Backtrack e => simp only [h, ← hr]; exact ihq _ _ i
        | Cut e => simp only [h, ← hr, hi, and_self]

/-- Every depth value observed during a run was either already observed
before the run, or is at least the depth the run started from: the counter
never drops below its starting value. -/
theorem run_history {I O E : Type} (p : PExpr I O E) :
    ∀ (c : Ctx) (i : I) (d : Int), d ∈ (run p c i).ctx.history →
      d ∈ c.history ∨ c.depth ≤ d := by
  induction p with
  | prim f => intro c i d hd; exact Or.inl hd
  | traced name enabled p ih =>
      intro c i d hd
      simp only [run, Ctx.release_history, Ctx.emit_history, Ctx.emit_depth,
        List.mem_append, List.mem_singleton] at hd
      rcases hd with hd | hd
      · rcases ih _ i d hd with hd | hd
        · simp only [Ctx.emit_history, Ctx.acquire_history, List.mem_append,
            List.mem_singleton] at hd
          rcases hd with hd | hd
          · exact Or.inl hd
          · exact Or.inr (by omega)
        · simp only [Ctx.emit_depth, Ctx.acquire_depth] at hd
          exact Or.inr (by omega)
      · have hde : (run p (c.acquire.emit enabled
            ⟨c.acquire.depth, name, .enter, none⟩) i).ctx.depth = c.depth + 1 := by
          rw [run_depth]; simp
        rw [hde] at hd
        exact Or.inr (by omega)
  | seq p q ihp ihq =>
      intro c i d hd
      simp only [run] at hd
      rcases h : (run p c i).result with v | e
      · rw [h] at hd
        simp only at hd
        rcases ihq _ _ d hd with hd | hd
        · exact ihp c i d hd
        · rw [run_depth] at hd
          exact Or.inr hd
      · rw [h] at hd
        exact ihp c i d hd
  | alt p q ihp ihq =>
      intro c i d hd
      simp only [run] at hd
      rcases h : (run p c i).result with v | e
      · rw [h] at hd; exact ihp c i d hd
      · rw [h] at hd
        cases e with
        | Incomplete n => exact ihp c i d hd
        | Backtrack e =>
            simp only at hd
            rcases ihq _ i d hd with hd | hd
            · exact ihp c i d hd
            · rw [run_depth] at hd
              exact Or.inr hd
        | Cut e => exact ihp c i d hd

/-- Wrapping one parser in the active tracer leaves the parse outcome
(resulting input and result) exactly that of the wrapped parser. -/
theorem run_traced_out {I O E : Type} (name : String) (enabled : Bool)
    (p : PExpr I O E) (c : Ctx) (i : I) :
    (run (.traced name enabled p) c i).input = (run p c i).input ∧
    (run (.traced name enabled p) c i).result = (run p c i).result := by
  simp only [run]
  exact run_out_congr p _ c i

/-- Whatever variant `trace` returns, invoking it yields the outcome of the
wrapped parser itself. -/
theorem trace_out_eq {I O E : Type} (cfg : BuildConfig)
    (env : Option String) (name : String) (p : PExpr I O E) (c : Ctx) (i : I) :
    ((trace cfg env name p).parse_next c i).input = (run p c i).input ∧
    ((trace cfg env name p).parse_next c i).result = (run p c i).result := by
  unfold trace
  split
  · cases env with
    | some flag =>
        simp only [Tracer.parse_next, Trace.parse_next, Trace.new]
        exact run_traced_out _ _ p c i
    | none =>
        simp only [Tracer.parse_next, Trace.parse_next, Trace.new]
        exact run_traced_out _ _ p c i
  · exact ⟨rfl, rfl⟩

/-- C1.  Transparency: for every wrapped parser, every display name, every
build configuration, every environment value, and every input and tracing
context, the tracer returned by `trace(name, P)` produces exactly the same
result and the same resulting input as invoking `P` directly; tracing has no
effect on parse outcomes. -/
theorem trace_transparent {I O E : Type} (cfg : BuildConfig)
    (env : Option String) (name : String) (p : PExpr I O E) (c : Ctx) (i : I) :
    ((trace cfg env name p).parse_next c i).input = (run p c i).input ∧
    ((trace cfg env name p).parse_next c i).result = (run p c i).result :=
  trace_out_eq cfg env name p c i

/-- C2.  Depth invariant: starting from any context whose depth counter is
non-negative and whose observed depth values are all non-negative, running
any nesting of traced invocations with any mix of outcomes restores the
depth counter to its pre-call value, and every depth value observed along
the way is non-negative. -/
theorem depth_invariant {I O E : Type} (p : PExpr I O E) (c : Ctx) (i : I)
    (hd : 0 ≤ c.depth) (hh : ∀ d ∈ c.history, 0 ≤ d) :
    (run p c i).ctx.depth = c.depth ∧
    ∀ d ∈ (run p c i).ctx.history, 0 ≤ d := by
  refine ⟨run_depth p c i, fun d hmem => ?_⟩
  rcases run_history p c i d hmem with h | h
  · exact hh d h
  · omega

/-- C2 witness: a traced parser that fails partway through a sequence of
nested traced invocations, run from the initial context. -/
theorem depth_invariant_witness :
    (0 ≤ Ctx.init.depth ∧ ∀ d ∈ Ctx.init.history, (0:Int) ≤ d) ∧
    ((run (PExpr.traced "outer" true
        (PExpr.seq
          (PExpr.traced "inner" true
            (PExpr.prim (fun (n : Nat) => (n + 1, PResult.ok 7))))
          (PExpr.prim (fun (n : Nat) =>
            (n, PResult.err (ErrMode.Backtrack ()))))))
        Ctx.init 0).ctx.depth = Ctx.init.depth ∧
      ∀ d ∈ (run (PExpr.traced "outer" true
        (PExpr.seq
          (PExpr.traced "inner" true
            (PExpr.prim (fun (n : Nat) => (n + 1, PResult.ok 7))))
          (PExpr.prim (fun (n : Nat) =>
            (n, PResult.err (ErrMode.Backtrack ()))))))
        Ctx.init 0).ctx.history, 0 ≤ d) :=
  ⟨⟨by decide, by simp [Ctx.init]⟩,
    depth_invariant _ Ctx.init 0 (by decide) (by simp [Ctx.init])⟩

/-- C3.  Variant selection: `trace` returns the active variant exactly when
instrumentation support is compiled in and the build is a debug build, and
the inert variant otherwise; the inert variant's `parse_next` delegates
directly to the wrapped parser. -/
theorem variant_selection {I O E : Type} (cfg : BuildConfig)
    (env : Option String) (name : String) (p : PExpr I O E) :
    trace cfg env name p =
      (if cfg.debug_feature && cfg.debug_assertions then
        Tracer.active (Trace.new p name
          (match env with
           | some flag => (parse_bool flag).getD false
           | none => false))
      else Tracer.empty (TraceEmpty.new p name)) ∧
    ∀ (c : Ctx) (i : I), (TraceEmpty.new p name).parse_next c i = run p c i := by
  constructor
  · unfold trace
    split
    · cases env <;> rfl
    · rfl
  · intro c i; rfl

/-- C4.  Severity classification is a pure total function of the outcome
alone: a value classifies as Success, a backtrack error as
RecoverableFailure, a cut error as UnrecoverableFailure, and an incomplete
signal as Incomplete. -/
theorem severity_classification {O E : Type} (o : O) (e e' : E) (n : Needed) :
    Severity.with_result (PResult.ok (E := E) o) = Severity.Success ∧
    Severity.with_result (PResult.err (O := O) (ErrMode.Backtrack e)) =
      Severity.RecoverableFailure ∧
    Severity.with_result (PResult.err (O := O) (ErrMode.Cut e')) =
      Severity.UnrecoverableFailure ∧
    Severity.with_result (PResult.err (O := O) (ErrMode.Incomplete (E := E) n)) =
      Severity.Incomplete :=
  ⟨rfl, rfl, rfl, rfl⟩

@[simp] theorem parse_bool_true : parse_bool "true" = some true := rfl

@[simp] theorem parse_bool_false : parse_bool "false" = some false := rfl

@[simp] theorem parse_bool_banana : parse_bool "banana" = none := rfl

/-- C5.  Toggle parsing: with instrumentation compiled in and a debug build,
environment value "true" constructs the tracer enabled, while "false",
absence, and the unparseable "banana" construct it disabled; and for every
environment value the parse outcome of the wrapped parser is unaffected. -/
theorem toggle_parsing {I O E : Type} (cfg : BuildConfig)
    (hf : cfg.debug_feature = true) (ha : cfg.debug_assertions = true)
    (name : String) (p : PExpr I O E) (env : Option String) (c : Ctx) (i : I) :
    trace cfg (some "true") name p = Tracer.active (Trace.new p name true) ∧
    trace cfg (some "false") name p = Tracer.active (Trace.new p name false) ∧
    trace cfg none name p = Tracer.active (Trace.new p name false) ∧
    trace cfg (some "banana") name p = Tracer.active (Trace.new p name false) ∧
    ((trace cfg env name p).parse_next c i).input = (run p c i).input ∧
    ((trace cfg env name p).parse_next c i).result = (run p c i).result := by
  refine ⟨?_, ?_, ?_, ?_, (trace_out_eq cfg env name p c i).1,
    (trace_out_eq cfg env name p c i).2⟩ <;>
    simp [trace, hf, ha]

/-- C5 witness: a concrete debug build, wrapped parser, unparseable
environment value, and input. -/
theorem toggle_parsing_witness :
    (BuildConfig.mk true true).debug_feature = true ∧
    (BuildConfig.mk true true).debug_assertions = true ∧
    (trace (BuildConfig.mk true true) (some "true") "w"
        (PExpr.prim (fun (n : Nat) => (n, PResult.ok (E := Unit) 0))) =
      Tracer.active (Trace.new
        (PExpr.prim (fun (n : Nat) => (n, PResult.ok (E := Unit) 0))) "w" true) ∧
      trace (BuildConfig.mk true true) (some "false") "w"
        (PExpr.prim (fun (n : Nat) => (n, PResult.ok (E := Unit) 0))) =
      Tracer.active (Trace.new
        (PExpr.prim (fun (n : Nat) => (n, PResult.ok (E := Unit) 0))) "w" false) ∧
      trace (BuildConfig.mk true true) none "w"
        (PExpr.prim (fun (n : Nat) => (n, PResult.ok (E := Unit) 0))) =
      Tracer.active (Trace.new
        (PExpr.prim (fun (n : Nat) => (n, PResult.ok (E := Unit) 0))) "w" false) ∧
      trace (BuildConfig.mk true true) (some "banana") "w"
        (PExpr.prim (fun (n : Nat) => (n, PResult.ok (E := Unit) 0))) =
      Tracer.active (Trace.new
        (PExpr.prim (fun (n : Nat) => (n, PResult.ok (E := Unit) 0))) "w" false) ∧
      ((trace (BuildConfig.mk true true) (some "banana") "w"
          (PExpr.prim (fun (n : Nat) => (n, PResult.ok (E := Unit) 0)))).parse_next
          Ctx.init 0).input =
        (run (PExpr.prim (fun (n : Nat) => (n, PResult.ok (E := Unit) 0)))
          Ctx.init 0).input ∧
      ((trace (BuildConfig.mk true true) (some "banana") "w"
          (PExpr.prim (fun (n : Nat) => (n, PResult.ok (E := Unit) 0)))).parse_next
          Ctx.init 0).result =
        (run (PExpr.prim (fun (n : Nat) => (n, PResult.ok (E := Unit) 0)))
          Ctx.init 0).result) :=
  ⟨rfl, rfl, toggle_parsing (BuildConfig.mk true true) rfl rfl "w" _
    (some "banana") Ctx.init 0⟩

/-- A disabled traced invocation of a leaf parser renders nothing: the
diagnostic sink is untouched. -/
theorem run_traced_prim_disabled_log {I O E : Type} (name : String)
    (f : I → I × PResult O E) (c : Ctx) (i : I) :
    (run (PExpr.traced name false (PExpr.prim f)) c i).ctx.log = c.log := by
  simp [run, Ctx.emit, Ctx.acquire, Ctx.release]

/-- C6.  Inert cost: whenever the toggle resolves to inert (support absent,
optimized build, or override missing, "false", or unparseable), zero trace
lines are produced: `trace_result` renders nothing and the wrapper returned
by `trace` leaves the diagnostic sink untouched, for any input and any
outcome of the wrapped leaf parser. -/
theorem inert_cost {I O E : Type} (cfg : BuildConfig) (env : Option String)
    (name : String) (f : I → I × PResult O E) (c : Ctx) (i : I) (d : Int)
    (res : PResult O E)
    (h : cfg.debug_feature = false ∨ cfg.debug_assertions = false ∨
      env = none ∨
      ∃ flag, env = some flag ∧ (parse_bool flag).getD false = false) :
    trace_result cfg env d name res = [] ∧
    ((trace cfg env name (PExpr.prim f)).parse_next c i).ctx.log = c.log := by
  by_cases hc : (cfg.debug_feature && cfg.debug_assertions) = true
  · obtain ⟨hf, ha⟩ : cfg.debug_feature = true ∧ cfg.debug_assertions = true := by
      simpa using hc
    have henv : env = none ∨
        ∃ flag, env = some flag ∧ (parse_bool flag).getD false = false := by
      rcases h with h | h | h | h
      · rw [hf] at h; exact absurd h (by simp)
      · rw [ha] at h; exact absurd h (by simp)
      · exact Or.inl h
      · exact Or.inr h
    rcases henv with henv | ⟨flag, hflag, hpf⟩
    · subst henv
      exact ⟨by simp [trace_result, hc],
        by simp [trace, hc, Tracer.parse_next, Trace.parse_next, Trace.new,
          run_traced_prim_disabled_log]⟩
    · subst hflag
      exact ⟨by simp [trace_result, hc, hpf],
        by simp [trace, hc, hpf, Tracer.parse_next, Trace.parse_next, Trace.new,
          run_traced_prim_disabled_log]⟩
  · have hc' : (cfg.debug_feature && cfg.debug_assertions) = false :=
      Bool.not_eq_true _ ▸ Bool.eq_false_iff.mpr hc
    exact ⟨by simp [trace_result, hc'],
      by simp [trace, hc', Tracer.parse_next, TraceEmpty.parse_next,
        TraceEmpty.new, run]⟩

/-- C6 witness: compiled-in debug build whose override is the unparseable
"banana", a concrete leaf parser and result. -/
theorem inert_cost_witness :
    trace_result (BuildConfig.mk true true) (some "banana") 0 "w"
        (PResult.ok (O := Nat) (E := Unit) 3) = [] ∧
    ((trace (BuildConfig.mk true true) (some "banana") "w"
        (PExpr.prim (fun (n : Nat) =>
          (n + 1, PResult.err (E := Unit) (O := Nat) (ErrMode.Cut ()))))).parse_next
        Ctx.init 5).ctx.log = Ctx.init.log :=
  inert_cost (BuildConfig.mk true true) (some "banana") "w" _ Ctx.init 5 0
    (PResult.ok 3) (Or.inr (Or.inr (Or.inr ⟨"banana", rfl, rfl⟩)))

/-- C7.  Rendering is fail-safe: with a broken output sink the parse
outcome (result and resulting input) is exactly the outcome with a working
sink — a rendering failure is never surfaced to the caller and never aborts
the parse — and the depth scope is still released, restoring the counter to
its pre-call value. -/
theorem rendering_fail_safe {I O E : Type} (p : PExpr I O E) (c : Ctx) (i : I) :
    (run p { c with sinkBroken := true } i).input = (run p c i).input ∧
    (run p { c with sinkBroken := true } i).result = (run p c i).result ∧
    (run p { c with sinkBroken := true } i).ctx.depth = c.depth := by
  obtain ⟨h1, h2⟩ := run_out_congr p { c with sinkBroken := true } c i
  exact ⟨h1, h2, run_depth p { c with sinkBroken := true } i⟩

/-- Both tracer variants observe the same enabled flag as the resolved
process-wide toggle, independently of name and parser. -/
theorem trace_enabled_eq {I O E : Type} (cfg : BuildConfig)
    (env : Option String) (name : String) (p : PExpr I O E) :
    Tracer.enabled_flag (trace cfg env name p) = resolved_toggle cfg env := by
  by_cases hc : (cfg.debug_feature && cfg.debug_assertions) = true
  · cases env <;>
      simp [trace, resolved_toggle, Tracer.enabled_flag, Trace.new, hc]
  · have hc' : (cfg.debug_feature && cfg.debug_assertions) = false :=
      Bool.not_eq_true _ ▸ Bool.eq_false_iff.mpr hc
    simp [trace, resolved_toggle, Tracer.enabled_flag, hc']

/-- `trace_result` renders exactly one line when the resolved toggle is on
and nothing otherwise. -/
theorem trace_result_eq_toggle {O E : Type} (cfg : BuildConfig)
    (env : Option String) (d : Int) (name : String) (res : PResult O E) :
    trace_result cfg env d name res =
      (if resolved_toggle cfg env then
        [⟨d, name, Phase.result, some (Severity.with_result res)⟩]
      else []) := by
  by_cases hc : (cfg.debug_feature && cfg.debug_assertions) = true
  · cases env with
    | some flag =>
        cases hm : (parse_bool flag).getD false <;>
          simp [trace_result, resolved_toggle, hc, hm]
    | none => simp [trace_result, resolved_toggle, hc]
  · have hc' : (cfg.debug_feature && cfg.debug_assertions) = false :=
      Bool.not_eq_true _ ▸ Bool.eq_false_iff.mpr hc
    simp [trace_result, resolved_toggle, hc']

/-- C8.  Toggle stability: the resolved toggle is a function of the
compile-time switches and the environment value fixed at process start; any
two tracer constructions in the same process observe the same toggle, and
`trace_result` renders according to that same toggle. -/
theorem toggle_stability {I O E : Type} (cfg : BuildConfig)
    (env : Option String) (n₁ n₂ : String) (p₁ p₂ : PExpr I O E) (d : Int)
    (res : PResult O E) :
    Tracer.enabled_flag (trace cfg env n₁ p₁) = resolved_toggle cfg env ∧
    Tracer.enabled_flag (trace cfg env n₂ p₂) = resolved_toggle cfg env ∧
    trace_result cfg env d n₁ res =
      (if resolved_toggle cfg env then
        [⟨d, n₁, Phase.result, some (Severity.with_result res)⟩]
      else []) :=
  ⟨trace_enabled_eq cfg env n₁ p₁, trace_enabled_eq cfg env n₂ p₂,
    trace_result_eq_toggle cfg env d n₁ res⟩

/-- C9.  Name noninterference in the inert path: the inert wrapper built
with either of two display names produces identical outcomes on
`parse_next`; the stored name is never read. -/
theorem name_noninterference {I O E : Type} (p : PExpr I O E) (n₁ n₂ : String)
    (c : Ctx) (i : I) :
    (TraceEmpty.new p n₁).parse_next c i = (TraceEmpty.new p n₂).parse_next c i :=
  rfl

/-- C10.  `trace_result` is a read-only observer: at a call site it leaves
the borrowed parse result, the input, the depth counter, and the sink state
of the caller unchanged; its only effect is appending rendered lines to the
diagnostic sink. -/
theorem trace_result_read_only {I O E : Type} (cfg : BuildConfig)
    (env : Option String) (name : String) (st : Ctx × I × PResult O E) :
    (trace_result_call cfg env name st).2.2 = st.2.2 ∧
    (trace_result_call cfg env name st).2.1 = st.2.1 ∧
    (trace_result_call cfg env name st).1.depth = st.1.depth ∧
    (trace_result_call cfg env name st).1.sinkBroken = st.1.sinkBroken :=
  ⟨rfl, rfl, rfl, rfl⟩

end Winnow
